import Mathlib

/-
  Formal model of the Zen Sand Garden height-field simulation (src/app.js).
  The source contains two implementation variants of the same program:
  V1, the additive-noise variant (first half of the file: disturbSand,
  fixed-rate blade, per-cell clamp to [-3, 3]); and V2, the mass-conserving
  variant (second half: digHoleWithConservation, graded-rate blade, clamp
  to [-6, 6]).  Heights are real numbers; a grid is a total function from
  integer cell coordinates (row y, column x, as in heightMap[y][x]).
  Loops of the source whose iterations each write one cell determined by
  the loop indices and read only that same cell are embedded pointwise
  (their sequential order is immaterial); the blade sweep, whose samples
  can revisit a cell, is embedded as left folds in source order.
-/

open Classical

/-- Height field: row y, column x, mirroring heightMap[y][x] of the source. -/
abbrev HeightMap := ℤ → ℤ → ℝ

/-- The all-zero height field (a freshly allocated grid in initHeightMap). -/
def zeroMap : HeightMap := fun _ _ => 0

/-- Functional update of a single grid cell. -/
def updateCell (m : HeightMap) (gy gx : ℤ) (v : ℝ) : HeightMap :=
  fun y x => if y = gy ∧ x = gx then v else m y x

/-- Offsets (dy, dx) enumerated by the nested loops
for (dy = -r; dy <= r; dy++) for (dx = -r; dx <= r; dx++). -/
def offsetList (r : ℕ) : List (ℤ × ℤ) :=
  (List.range (2 * r + 1)).flatMap fun (i : ℕ) =>
    (List.range (2 * r + 1)).map fun (j : ℕ) => ((i : ℤ) - (r : ℤ), (j : ℤ) - (r : ℤ))

/-- All cells of a height field lie in the closed interval [-b, b]. -/
def Bounded (b : ℝ) (m : HeightMap) : Prop := ∀ y x, -b ≤ m y x ∧ m y x ≤ b

/-- All cells of a target field have magnitude at most the wave amplitude. -/
def TargetBounded (t : HeightMap) : Prop := ∀ y x, |t y x| ≤ 1

/-- CONFIG.waves.amplitude, equal to 1.0 in both variants. -/
def amplitude : ℝ := 1.0

/-- World distance of the centre of grid cell (y, x) from the garden centre,
with grid resolution 2: sqrt((x*2 - R)^2 + (y*2 - R)^2). -/
noncomputable def cellGardenDist (R : ℝ) (y x : ℤ) : ℝ :=
  Real.sqrt (((x : ℝ) * 2 - R) * ((x : ℝ) * 2 - R) +
    ((y : ℝ) * 2 - R) * ((y : ℝ) * 2 - R))

/-- calculateTargetWavePattern, textually identical in both variants
(src/app.js lines 148-165 and 675-691).  Each loop iteration writes its own
cell a value depending only on the cell coordinates, so the loops are
embedded pointwise.  Cells out of grid range or at world distance at least
gardenRadius - 5 keep their previous value. -/
noncomputable def calculateTargetWavePattern (gw gh : ℤ) (R : ℝ) (teethCount : ℤ)
    (t0 : HeightMap) : HeightMap :=
  fun y x =>
    if 0 ≤ y ∧ y < gh ∧ 0 ≤ x ∧ x < gw ∧ cellGardenDist R y x < R - 5 then
      Real.sin (cellGardenDist R y x * ((teethCount : ℝ) / R) * Real.pi * 2) * amplitude
    else t0 y x

/-- The target field right after grid (re)initialisation: the wave pattern is
computed over the freshly zero-allocated target array. -/
noncomputable def initTarget (gw gh : ℤ) (R : ℝ) (teethCount : ℤ) : HeightMap :=
  calculateTargetWavePattern gw gh R teethCount zeroMap

/-- Radii visited by the loop for (r = 20; r < bladeLength; r += resolution),
with resolution 2. -/
noncomputable def rList (bladeLength : ℝ) : List ℝ :=
  (List.range (⌈(bladeLength - 20) / 2⌉).toNat).map fun k => 20 + 2 * (k : ℝ)

/-- Wedge angles visited by the loop for (a = -wedgeAngle; a <= 0; a += 0.015). -/
noncomputable def aList (wedgeAngle : ℝ) : List ℝ :=
  if wedgeAngle < 0 then []
  else (List.range ((⌊wedgeAngle / 0.015⌋).toNat + 1)).map fun j =>
    -wedgeAngle + 0.015 * (j : ℝ)

/-- updateBlade angle advance with wraparound, identical in both variants:
bladeAngle += speed; if (bladeAngle > Math.PI * 2) bladeAngle -= Math.PI * 2. -/
noncomputable def updateBladeAngle (angle speed : ℝ) : ℝ :=
  if angle + speed > Real.pi * 2 then angle + speed - Real.pi * 2 else angle + speed

namespace V1

/-- CONFIG.simulation.waveApplicationRate of the additive-noise variant. -/
def waveApplicationRate : ℝ := 0.12

/-- CONFIG.simulation.healingRate of the additive-noise variant. -/
def healingRate : ℝ := 0.08

/-- CONFIG.blade.rotationSpeed of the additive-noise variant. -/
def rotationSpeed : ℝ := 0.004

/-- disturbSand (src/app.js lines 281-315).  The grid touch radius is
Math.ceil(CONFIG.touch.radius / gridResolution) = ceil(30 / 2) = 15.  The
dy/dx loops write each affected cell exactly once reading only that cell,
so the loop body is embedded pointwise over the written cell. -/
noncomputable def disturbSand (gw gh : ℤ) (R cX cY screenX screenY strength : ℝ)
    (m : HeightMap) : HeightMap :=
  fun y x =>
    let gridX : ℤ := ⌊(screenX - cX + R) / 2⌋
    let gridY : ℤ := ⌊(screenY - cY + R) / 2⌋
    let worldX := screenX - cX
    let worldY := screenY - cY
    let distFromCenter := Real.sqrt (worldX * worldX + worldY * worldY)
    if distFromCenter > R - 10 then m y x
    else
      let dy := y - gridY
      let dx := x - gridX
      let dist := Real.sqrt ((dx : ℝ) * dx + (dy : ℝ) * dy)
      if -15 ≤ dy ∧ dy ≤ 15 ∧ -15 ≤ dx ∧ dx ≤ 15 ∧
          0 ≤ x ∧ x < gw ∧ 0 ≤ y ∧ y < gh ∧ dist ≤ 15 then
        let falloff := 1 - dist / 15
        let noise := Real.sin ((x : ℝ) * 0.5) * Real.cos ((y : ℝ) * 0.7)
        max (-3) (min 3 (m y x + noise * strength * (falloff * falloff)))
      else m y x

/-- Per-cell comb-side relaxation of the fixed-rate variant (line 358):
current + (target - current) * waveApplicationRate. -/
noncomputable def combCell (current target : ℝ) : ℝ :=
  current + (target - current) * waveApplicationRate

/-- Per-cell smooth-side relaxation of the fixed-rate variant (line 362):
current * (1 - healingRate). -/
noncomputable def smoothCell (current : ℝ) : ℝ :=
  current * (1 - healingRate)

/-- One side of the fixed-rate blade sweep: the nested radius and wedge-angle
loops of applyBladeEffects (lines 336-367), for the side with angular offset
sideAngle; isComb tells whether this is side 0 (comb) or side 1 (smooth). -/
noncomputable def sweepSide (gw gh : ℤ) (R bladeAngle sideAngle : ℝ) (isComb : Bool)
    (target : HeightMap) (m : HeightMap) : HeightMap :=
  (rList (R - 5)).foldl
    (fun m1 r =>
      (aList (rotationSpeed * 2)).foldl
        (fun m2 a =>
          let angle := bladeAngle + a + sideAngle
          let worldX := Real.cos angle * r
          let worldY := Real.sin angle * r
          let gridX : ℤ := ⌊(worldX + R) / 2⌋
          let gridY : ℤ := ⌊(worldY + R) / 2⌋
          if 0 ≤ gridX ∧ gridX < gw ∧ 0 ≤ gridY ∧ gridY < gh then
            if isComb then
              updateCell m2 gridY gridX (combCell (m2 gridY gridX) (target gridY gridX))
            else
              updateCell m2 gridY gridX (smoothCell (m2 gridY gridX))
          else m2)
        m1)
    m

/-- applyBladeEffects of the fixed-rate variant: side 0 (comb, offset 0) is
processed first, then side 1 (smooth, offset pi). -/
noncomputable def applyBladeEffects (gw gh : ℤ) (R bladeAngle : ℝ)
    (target : HeightMap) (m : HeightMap) : HeightMap :=
  sweepSide gw gh R bladeAngle Real.pi false target
    (sweepSide gw gh R bladeAngle 0 true target m)

end V1

/-- Euclidean length of a cell offset (dy, dx): Math.sqrt(dx*dx + dy*dy). -/
noncomputable def offDist (p : ℤ × ℤ) : ℝ :=
  Real.sqrt ((p.2 : ℝ) * (p.2 : ℝ) + (p.1 : ℝ) * (p.1 : ℝ))

namespace V2

/-- CONFIG.blade.pushStrength of the conserving variant. -/
def pushStrength : ℝ := 0.025

/-- CONFIG.touch.digStrength of the conserving variant. -/
def digStrength : ℝ := 0.25

/-- CONFIG.touch.maxHeight of the conserving variant. -/
def maxHeight : ℝ := 6

/-- CONFIG.touch.minHeight of the conserving variant. -/
def minHeight : ℝ := -6

/-- Grid dig radius: Math.ceil(CONFIG.touch.radius / gridResolution) = ceil(35/2). -/
def digRadius : ℤ := 18

/-- CONFIG.touch.duneSpreadRadius of the conserving variant. -/
def duneSpreadRadius : ℤ := 4

/-- Column of the grid cell a screen point maps to (resolution 2). -/
noncomputable def digGridX (R screenX cX : ℝ) : ℤ := ⌊(screenX - cX + R) / 2⌋

/-- Row of the grid cell a screen point maps to (resolution 2). -/
noncomputable def digGridY (R screenY cY : ℝ) : ℤ := ⌊(screenY - cY + R) / 2⌋

/-- First (dig) pass of digHoleWithConservation (lines 807-829): each cell of
the dig disk is lowered by a falloff-weighted strength, clamped below at
minHeight; the write happens only when the removal is strictly positive.
Each iteration writes only its own cell and reads only that cell, so the
pass is embedded pointwise. -/
noncomputable def digPassMap (gw gh gridX gridY : ℤ) (m : HeightMap) : HeightMap :=
  fun y x =>
    let dy := y - gridY
    let dx := x - gridX
    let dist := offDist (dy, dx)
    let falloff := 1 - dist / (digRadius : ℝ)
    let strength := falloff * falloff * digStrength
    let newHeight := max minHeight (m y x - strength)
    let removed := m y x - newHeight
    if -digRadius ≤ dy ∧ dy ≤ digRadius ∧ -digRadius ≤ dx ∧ dx ≤ digRadius ∧
        0 ≤ x ∧ x < gw ∧ 0 ≤ y ∧ y < gh ∧ dist ≤ (digRadius : ℝ) ∧ 0 < removed then
      newHeight
    else m y x

/-- Contribution of one loop offset to totalRemoved: the sand actually
removed from that cell by the dig pass, zero when the cell is skipped. -/
noncomputable def removedAt (gw gh gridX gridY : ℤ) (m : HeightMap) (p : ℤ × ℤ) : ℝ :=
  let gy := gridY + p.1
  let gx := gridX + p.2
  let dist := offDist p
  let falloff := 1 - dist / (digRadius : ℝ)
  let strength := falloff * falloff * digStrength
  let newHeight := max minHeight (m gy gx - strength)
  let removed := m gy gx - newHeight
  if 0 ≤ gx ∧ gx < gw ∧ 0 ≤ gy ∧ gy < gh ∧ dist ≤ (digRadius : ℝ) ∧ 0 < removed then
    removed
  else 0

/-- Total sand removed by the dig pass, accumulated over the same loop. -/
noncomputable def totalRemoved (gw gh gridX gridY : ℤ) (m : HeightMap) : ℝ :=
  ((offsetList 18).map (removedAt gw gh gridX gridY m)).sum

/-- Condition for a cell offset to enter ringCells in the second pass of
digHoleWithConservation (lines 838-856): inside the scan square of half side
ringOuter = digRadius + duneSpreadRadius = 22, in grid bounds, at ring
distance between digRadius + 1 and ringOuter, and strictly inside the
active garden disc. -/
noncomputable def RingCond (gw gh gridX gridY : ℤ) (R : ℝ) (p : ℤ × ℤ) : Prop :=
  -22 ≤ p.1 ∧ p.1 ≤ 22 ∧ -22 ≤ p.2 ∧ p.2 ≤ 22 ∧
  0 ≤ gridX + p.2 ∧ gridX + p.2 < gw ∧ 0 ≤ gridY + p.1 ∧ gridY + p.1 < gh ∧
  (digRadius : ℝ) + 1 ≤ offDist p ∧
  offDist p ≤ (digRadius : ℝ) + (duneSpreadRadius : ℝ) ∧
  cellGardenDist R (gridY + p.1) (gridX + p.2) < R - 5

/-- Inverse-distance weight of a ring cell: 1 - (dist - ringInner) / spreadRadius. -/
noncomputable def ringWeight (p : ℤ × ℤ) : ℝ :=
  1 - (offDist p - ((digRadius : ℝ) + 1)) / (duneSpreadRadius : ℝ)

/-- Sum of the weights of all ring cells (totalWeight in the source). -/
noncomputable def totalWeight (gw gh gridX gridY : ℤ) (R : ℝ) : ℝ :=
  ((offsetList 22).map fun p =>
    if RingCond gw gh gridX gridY R p then ringWeight p else 0).sum

/-- digHoleWithConservation (lines 796-873): the dig pass, then, when sand
was removed and the ring is nonempty, distribution of totalRemoved over the
ring cells proportionally to ringWeight, each deposit clamped above at
maxHeight.  Ring membership of a cell is decided by its own offset and each
ring cell receives exactly one deposit reading only itself, so the
distribution loop is embedded pointwise; the ringCells list of the source
is the set of offsets satisfying RingCond. -/
noncomputable def digHoleWithConservation (gw gh : ℤ) (R screenX screenY cX cY : ℝ)
    (m : HeightMap) : HeightMap :=
  fun y x =>
    let gridX := digGridX R screenX cX
    let gridY := digGridY R screenY cY
    let T := totalRemoved gw gh gridX gridY m
    let dp := digPassMap gw gh gridX gridY m
    if 0 < T ∧ ∃ p, RingCond gw gh gridX gridY R p then
      let W := totalWeight gw gh gridX gridY R
      if RingCond gw gh gridX gridY R (y - gridY, x - gridX) then
        min maxHeight (dp y x + ringWeight (y - gridY, x - gridX) / W * T)
      else dp y x
    else dp y x

/-- Sum of the deposits actually added to the ring cells by the second pass
of digHoleWithConservation: final height minus post-dig height, summed over
the ring cells of that call. -/
noncomputable def ringDepositSum (gw gh : ℤ) (R screenX screenY cX cY : ℝ)
    (m : HeightMap) : ℝ :=
  let gridX := digGridX R screenX cX
  let gridY := digGridY R screenY cY
  let dp := digPassMap gw gh gridX gridY m
  let fm := digHoleWithConservation gw gh R screenX screenY cX cY m
  ((offsetList 22).map fun p =>
    if RingCond gw gh gridX gridY R p then
      fm (gridY + p.1) (gridX + p.2) - dp (gridY + p.1) (gridX + p.2)
    else 0).sum

/-- processInteraction (lines 781-794): no-op unless interacting with a
recorded position; a position farther than gardenRadius - 10 from the centre
is rejected; otherwise the hole is dug at the position. -/
noncomputable def processInteraction (gw gh : ℤ) (R cX cY : ℝ) (isInteracting : Bool)
    (currentTouchPos : Option (ℝ × ℝ)) (m : HeightMap) : HeightMap :=
  match isInteracting, currentTouchPos with
  | true, some pos =>
    let worldX := pos.1 - cX
    let worldY := pos.2 - cY
    let distFromCenter := Real.sqrt (worldX * worldX + worldY * worldY)
    if distFromCenter > R - 10 then m
    else digHoleWithConservation gw gh R pos.1 pos.2 cX cY m
  | _, _ => m

/-- spreadToNeighbors (lines 948-963): push a clamped amount of sand into
the neighbour cell perpendicular to the blade direction. -/
noncomputable def spreadToNeighbors (gw gh : ℤ) (m : HeightMap) (originX originY : ℤ)
    (amount bladeDir : ℝ) : HeightMap :=
  if |amount| < 0.001 then m
  else
    let spreadAngle := bladeDir + Real.pi / 2
    let dirX : ℤ := round (Real.cos spreadAngle * 2)
    let dirY : ℤ := round (Real.sin spreadAngle * 2)
    let gx := originX + dirX
    let gy := originY + dirY
    if 0 ≤ gx ∧ gx < gw ∧ 0 ≤ gy ∧ gy < gh then
      updateCell m gy gx (max minHeight (min maxHeight (m gy gx + amount)))
    else m

/-- Per-cell comb-side update of the graded-rate variant (lines 907-926):
slow healing above deviation 1.5, moderate healing above deviation 0.1, and
exact snap to the target at deviation at most 0.1. -/
noncomputable def combCellNewHeight (current target : ℝ) : ℝ :=
  let diff := target - current
  let absDiff := |diff|
  if absDiff > 1.5 then current + diff * pushStrength
  else if absDiff > 0.1 then current + diff * 0.15
  else target

/-- Per-cell smooth-side update of the graded-rate variant (lines 927-940):
slow flattening above magnitude 1.5, exact zero at magnitude at most 1.5. -/
noncomputable def smoothCellNewHeight (current : ℝ) : ℝ :=
  if |current| > 1.5 then current * (1 - pushStrength)
  else 0

/-- One side of the graded-rate blade sweep (lines 885-946): nested radius
and wedge-angle loops; the swept cell is updated through combCellNewHeight
or smoothCellNewHeight, and a strong deviation additionally spreads part of
the moved sand to a neighbour cell perpendicular to the blade.  The spread
guard is written here unnested as > 2.5, which agrees with the nesting of
the source because > 2.5 implies the enclosing branch condition > 1.5. -/
noncomputable def sweepSide (gw gh : ℤ) (R rotationSpeed bladeAngle sideAngle : ℝ)
    (isComb : Bool) (target : HeightMap) (m : HeightMap) : HeightMap :=
  (rList (R - 5)).foldl
    (fun m1 r =>
      (aList (rotationSpeed * 3)).foldl
        (fun m2 a =>
          let angle := bladeAngle + a + sideAngle
          let worldX := Real.cos angle * r
          let worldY := Real.sin angle * r
          let gridX : ℤ := ⌊(worldX + R) / 2⌋
          let gridY : ℤ := ⌊(worldY + R) / 2⌋
          if 0 ≤ gridX ∧ gridX < gw ∧ 0 ≤ gridY ∧ gridY < gh then
            let current := m2 gridY gridX
            if isComb then
              let diff := target gridY gridX - current
              let m3 := updateCell m2 gridY gridX
                (combCellNewHeight current (target gridY gridX))
              if |diff| > 2.5 then
                spreadToNeighbors gw gh m3 gridX gridY (-(diff * pushStrength) * 0.3) angle
              else m3
            else
              let m3 := updateCell m2 gridY gridX (smoothCellNewHeight current)
              if |current| > 2.5 then
                spreadToNeighbors gw gh m3 gridX gridY (current * pushStrength * 0.3) angle
              else m3
          else m2)
        m1)
    m

/-- applyBladeEffects of the graded-rate variant: comb side then smooth side. -/
noncomputable def applyBladeEffects (gw gh : ℤ) (R rotationSpeed bladeAngle : ℝ)
    (target : HeightMap) (m : HeightMap) : HeightMap :=
  sweepSide gw gh R rotationSpeed bladeAngle Real.pi false target
    (sweepSide gw gh R rotationSpeed bladeAngle 0 true target m)

/-- updateSpeed (lines 631-634): the bounded slider value maps linearly to
rotationSpeed = 0.001 + value / 100 * 0.014. -/
noncomputable def updateSpeed (value : ℝ) : ℝ := 0.001 + value / 100 * 0.014

end V2

/-- Global mutable state touched by the resize path: blade angle, geometry,
grid dimensions and the two fields.  The V2 rotationSpeed is untouched by
resize and omitted. -/
structure GardenState where
  bladeAngle : ℝ
  gardenRadius : ℝ
  centerX : ℝ
  centerY : ℝ
  teethCount : ℤ
  gridW : ℤ
  gridH : ℤ
  heightMap : HeightMap
  targetMap : HeightMap

/-- setupCanvas, identical in both variants: recompute gardenRadius, the
centre, and teethCount = floor((gardenRadius - 20) / 12) from the viewport. -/
noncomputable def setupCanvas (innerW innerH : ℝ) (s : GardenState) : GardenState :=
  let minDimension := min innerW innerH
  let R := minDimension / 2 - 20 - 12
  { s with gardenRadius := R, centerX := innerW / 2, centerY := innerH / 2,
           teethCount := ⌊(R - 20) / 12⌋ }

namespace V1

/-- initHeightMap of the additive-noise variant: freshly zeroed arrays, the
target wave pattern, then applyFullWavePattern copies the target into the
heights of every in-grid cell. -/
noncomputable def initHeightMapState (s : GardenState) : GardenState :=
  let gw : ℤ := ⌈s.gardenRadius * 2 / 2⌉
  let gh : ℤ := ⌈s.gardenRadius * 2 / 2⌉
  let t := initTarget gw gh s.gardenRadius s.teethCount
  { s with gridW := gw, gridH := gh, targetMap := t,
           heightMap := fun y x =>
             if 0 ≤ y ∧ y < gh ∧ 0 ≤ x ∧ x < gw then t y x else 0 }

/-- handleResize of the additive-noise variant: setupCanvas then initHeightMap. -/
noncomputable def handleResize (innerW innerH : ℝ) (s : GardenState) : GardenState :=
  initHeightMapState (setupCanvas innerW innerH s)

end V1

namespace V2

/-- initHeightMap of the conserving variant: freshly zeroed arrays, the
target wave pattern, then applyInitialPattern sets heights to the target on
the half plane worldX >= 0 and to zero elsewhere. -/
noncomputable def initHeightMapState (s : GardenState) : GardenState :=
  let gw : ℤ := ⌈s.gardenRadius * 2 / 2⌉
  let gh : ℤ := ⌈s.gardenRadius * 2 / 2⌉
  let t := initTarget gw gh s.gardenRadius s.teethCount
  { s with gridW := gw, gridH := gh, targetMap := t,
           heightMap := fun y x =>
             if 0 ≤ y ∧ y < gh ∧ 0 ≤ x ∧ x < gw then
               if (x : ℝ) * 2 - s.gardenRadius ≥ 0 then t y x else 0
             else 0 }

/-- handleResize of the conserving variant: setupCanvas then initHeightMap. -/
noncomputable def handleResize (innerW innerH : ℝ) (s : GardenState) : GardenState :=
  initHeightMapState (setupCanvas innerW innerH s)

end V2

/-- A sample pre-resize state with a nonzero blade angle. -/
noncomputable def sampleState : GardenState :=
  { bladeAngle := 1, gardenRadius := 0, centerX := 0, centerY := 0,
    teethCount := 0, gridW := 0, gridH := 0, heightMap := zeroMap, targetMap := zeroMap }

/-- The constant height field at the upper clamp bound of the conserving
variant. -/
def sixMap : HeightMap := fun _ _ => 6

/-- The constant height field at the lower clamp bound of the conserving
variant. -/
def minusSixMap : HeightMap := fun _ _ => -6

/-
  Supporting lemmas.
-/

theorem updateCell_same (m : HeightMap) (gy gx : ℤ) (v : ℝ) :
    updateCell m gy gx v gy gx = v := by
  simp [updateCell]

theorem updateCell_other {m : HeightMap} {gy gx : ℤ} {v : ℝ} {y x : ℤ}
    (h : ¬(y = gy ∧ x = gx)) : updateCell m gy gx v y x = m y x := by
  simp only [updateCell, if_neg h]

theorem mem_offsetList {r : ℕ} {p : ℤ × ℤ} :
    p ∈ offsetList r ↔ -(r : ℤ) ≤ p.1 ∧ p.1 ≤ r ∧ -(r : ℤ) ≤ p.2 ∧ p.2 ≤ r := by
  obtain ⟨dy, dx⟩ := p
  constructor
  · intro hp2
    obtain ⟨i, hi, hmem⟩ := List.mem_flatMap.mp hp2
    obtain ⟨j, hj, hpe⟩ := List.mem_map.mp hmem
    rw [List.mem_range] at hi hj
    rw [Prod.mk.injEq] at hpe
    obtain ⟨hy, hx⟩ := hpe
    subst hy; subst hx
    refine ⟨by omega, by omega, by omega, by omega⟩
  · rintro ⟨h1, h2, h3, h4⟩
    refine List.mem_flatMap.mpr ⟨(dy + r).toNat, List.mem_range.mpr (by omega), ?_⟩
    refine List.mem_map.mpr ⟨(dx + r).toNat, List.mem_range.mpr (by omega), ?_⟩
    rw [Prod.mk.injEq]
    constructor <;> omega

/-- Invariant preservation along a left fold. -/
theorem foldl_preserves {α β : Type} (P : α → Prop) (f : α → β → α)
    (hstep : ∀ a b, P a → P (f a b)) :
    ∀ (l : List β) (a : α), P a → P (l.foldl f a) := by
  intro l
  induction l with
  | nil => intro a h; exact h
  | cons b t ih => intro a h; exact ih _ (hstep a b h)

/-- Real.sin does not vanish at nonzero rational points, since pi is irrational. -/
theorem sin_ratCast_ne_zero (q : ℚ) (hq : q ≠ 0) : Real.sin (q : ℝ) ≠ 0 := by
  intro h
  obtain ⟨n, hn⟩ := Real.sin_eq_zero_iff.mp h
  rcases eq_or_ne n 0 with rfl | hn0
  · rw [Int.cast_zero, zero_mul] at hn
    exact hq (by exact_mod_cast hn.symm)
  · have hnR : (n : ℝ) ≠ 0 := Int.cast_ne_zero.mpr hn0
    have hpi : Real.pi = ((q / (n : ℚ) : ℚ) : ℝ) := by
      push_cast
      rw [eq_div_iff hnR, mul_comm]
      exact hn
    exact irrational_pi.ne_rat _ hpi

/-- Real.cos does not vanish at rational points, since pi is irrational. -/
theorem cos_ratCast_ne_zero (q : ℚ) : Real.cos (q : ℝ) ≠ 0 := by
  intro h
  obtain ⟨k, hk⟩ := Real.cos_eq_zero_iff.mp h
  have hk0 : (2 * (k : ℝ) + 1) ≠ 0 := by
    intro h0
    have h1 : ((2 * k + 1 : ℤ) : ℝ) = 0 := by push_cast; linarith
    have h2 : (2 * k + 1 : ℤ) = 0 := by exact_mod_cast h1
    omega
  have hpi : Real.pi = ((2 * q / (2 * (k : ℚ) + 1) : ℚ) : ℝ) := by
    push_cast
    rw [eq_div_iff (by exact_mod_cast hk0)]
    field_simp at hk
    linarith [hk]
  exact irrational_pi.ne_rat _ hpi

theorem initTarget_bounded (gw gh : ℤ) (R : ℝ) (teethCount : ℤ) :
    TargetBounded (initTarget gw gh R teethCount) := by
  intro y x
  unfold initTarget calculateTargetWavePattern
  split
  · rw [show amplitude = 1 by norm_num [amplitude], mul_one]
    exact abs_le.mpr ⟨Real.neg_one_le_sin _, Real.sin_le_one _⟩
  · simp [zeroMap]

/-
  Claim C7.
-/

/-- Claim C7: in the graded-rate variant, a comb-side blade pass over a cell
whose deviation from the target is below the snap epsilon 0.1 sets the
height exactly to the target, and any further comb-side pass over the cell
leaves it unchanged. -/
theorem claim_c7_snap (current target : ℝ) (h : |target - current| < 0.1) :
    V2.combCellNewHeight current target = target ∧
    V2.combCellNewHeight target target = target := by
  have h15 : ¬ (1.5 < |target - current|) := by intro hx; linarith
  have h01 : ¬ (0.1 < |target - current|) := by intro hx; linarith
  constructor
  · unfold V2.combCellNewHeight
    simp only [if_neg h15, if_neg h01]
  · unfold V2.combCellNewHeight
    simp only [sub_self, abs_zero]
    norm_num

/-- Witness for claim C7 at current = 0, target = 0.05. -/
theorem claim_c7_snap_witness :
    |(0.05 : ℝ) - 0| < 0.1 ∧ V2.combCellNewHeight 0 0.05 = 0.05 ∧
    V2.combCellNewHeight 0.05 0.05 = 0.05 := by
  have hh : |(0.05 : ℝ) - 0| < 0.1 := by
    rw [sub_zero, abs_of_pos] <;> norm_num
  exact ⟨hh, claim_c7_snap 0 0.05 hh⟩

/-
  Claim C9.
-/

/-- Claim C9, counterexample: the wraparound is strict, so from the in-range
angle 2 pi - 0.004 one tick at the configured speed 0.004 of the fixed-rate
variant lands exactly on 2 pi, which is outside the half-open interval
[0, 2 pi) asserted by the claim. -/
theorem claim_c9_counterexample :
    0 ≤ 2 * Real.pi - 0.004 ∧ 2 * Real.pi - 0.004 < 2 * Real.pi ∧
    V1.rotationSpeed = 0.004 ∧
    ¬ updateBladeAngle (2 * Real.pi - 0.004) 0.004 < 2 * Real.pi := by
  have hpi := Real.pi_gt_three
  refine ⟨by linarith, by linarith, by norm_num [V1.rotationSpeed], ?_⟩
  unfold updateBladeAngle
  have h1 : 2 * Real.pi - 0.004 + (0.004 : ℝ) = Real.pi * 2 := by ring
  rw [h1, if_neg (lt_irrefl (Real.pi * 2))]
  intro h2
  linarith

/-- Claim C9 (amended): for a start angle in [0, 2 pi) and a positive speed
at most 0.015 (which covers the configured speeds of both variants), the
updated blade angle lies in the closed interval [0, 2 pi], and the right
endpoint 2 pi is attained only when angle + speed lands exactly on 2 pi;
moreover the slider mapping of the conserving variant keeps the speed in
that range for every slider value in [0, 100]. -/
theorem claim_c9_amended (angle speed : ℝ) (h0 : 0 ≤ angle) (h1 : angle < 2 * Real.pi)
    (hs0 : 0 < speed) (hs1 : speed ≤ 0.015) :
    (0 ≤ updateBladeAngle angle speed ∧ updateBladeAngle angle speed ≤ 2 * Real.pi ∧
      (updateBladeAngle angle speed = 2 * Real.pi → angle + speed = 2 * Real.pi)) ∧
    (∀ v : ℝ, 0 ≤ v → v ≤ 100 → 0 < V2.updateSpeed v ∧ V2.updateSpeed v ≤ 0.015) := by
  have hpi := Real.pi_gt_three
  constructor
  · unfold updateBladeAngle
    split
    · next h => exact ⟨by linarith, by linarith, by intro h2; linarith⟩
    · next h =>
      push_neg at h
      exact ⟨by linarith, by linarith, by intro h2; linarith⟩
  · intro v hv0 hv1
    unfold V2.updateSpeed
    constructor <;> nlinarith

/-- Witness for the amended claim C9 at angle 0 and the fixed speed 0.004. -/
theorem claim_c9_amended_witness :
    (0 ≤ updateBladeAngle 0 0.004 ∧ updateBladeAngle 0 0.004 ≤ 2 * Real.pi ∧
      (updateBladeAngle 0 0.004 = 2 * Real.pi → 0 + 0.004 = 2 * Real.pi)) ∧
    (∀ v : ℝ, 0 ≤ v → v ≤ 100 → 0 < V2.updateSpeed v ∧ V2.updateSpeed v ≤ 0.015) :=
  claim_c9_amended 0 0.004 (le_refl 0) (by positivity) (by norm_num) (by norm_num)

/-
  Claim C5.
-/

/-- Claim C5: after grid (re)initialisation the target field equals
amplitude * sin(2 pi dist waveFreq) with waveFreq = teethCount/gardenRadius
for every in-grid cell at world distance below the active radius R - 5, and
equals exactly 0 for every in-grid cell at or beyond the active radius. -/
theorem claim_c5_target_pattern (gw gh teethCount : ℤ) (R : ℝ) (y x : ℤ)
    (hy0 : 0 ≤ y) (hy1 : y < gh) (hx0 : 0 ≤ x) (hx1 : x < gw) :
    (cellGardenDist R y x < R - 5 →
      initTarget gw gh R teethCount y x =
        amplitude *
          Real.sin (2 * Real.pi * cellGardenDist R y x * ((teethCount : ℝ) / R))) ∧
    (¬ cellGardenDist R y x < R - 5 → initTarget gw gh R teethCount y x = 0) := by
  constructor
  · intro hd
    unfold initTarget calculateTargetWavePattern
    rw [if_pos ⟨hy0, hy1, hx0, hx1, hd⟩, mul_comm]
    have harg : cellGardenDist R y x * ((teethCount : ℝ) / R) * Real.pi * 2
        = 2 * Real.pi * cellGardenDist R y x * ((teethCount : ℝ) / R) := by ring
    rw [harg]
  · intro hd
    unfold initTarget calculateTargetWavePattern
    rw [if_neg]
    · rfl
    · rintro ⟨-, -, -, -, h5⟩
      exact hd h5

/-- Witness for claim C5 at the central cell of a 100 x 100 grid. -/
theorem claim_c5_witness :
    (cellGardenDist 100 50 50 < 100 - 5 →
      initTarget 100 100 100 6 50 50 =
        amplitude *
          Real.sin (2 * Real.pi * cellGardenDist 100 50 50 * (((6 : ℤ) : ℝ) / 100))) ∧
    (¬ cellGardenDist 100 50 50 < 100 - 5 → initTarget 100 100 100 6 50 50 = 0) :=
  claim_c5_target_pattern 100 100 6 100 50 50 (by norm_num) (by norm_num)
    (by norm_num) (by norm_num)

/-
  Claim C8.
-/

/-- Claim C8, counterexample: the resize handler does not reset the blade
angle; from a state with blade angle 1 the angle is still 1 after resize. -/
theorem claim_c8_counterexample :
    (V1.handleResize 600 800 sampleState).bladeAngle = 1 ∧
    ¬ (V1.handleResize 600 800 sampleState).bladeAngle = 0 := by
  have h : (V1.handleResize 600 800 sampleState).bladeAngle = 1 := rfl
  refine ⟨h, ?_⟩
  rw [h]
  norm_num

/-- Claim C8 (amended): the resize handler recomputes the grid dimensions and
deterministically resets the target and height fields to the initial pattern
(all-target in the additive-noise variant, half-target/half-zero split along
the vertical diameter in the conserving variant), discarding all prior field
state (the post-resize fields do not depend on the pre-resize state); the
blade angle, however, persists through the resize instead of being reset,
and neither variant has a mass pool. -/
theorem claim_c8_amended (innerW innerH : ℝ) (s s2 : GardenState) :
    ((V1.handleResize innerW innerH s).gridW =
        ⌈(min innerW innerH / 2 - 20 - 12) * 2 / 2⌉ ∧
      (V1.handleResize innerW innerH s).gridH =
        ⌈(min innerW innerH / 2 - 20 - 12) * 2 / 2⌉ ∧
      (V1.handleResize innerW innerH s).targetMap =
        initTarget ⌈(min innerW innerH / 2 - 20 - 12) * 2 / 2⌉
          ⌈(min innerW innerH / 2 - 20 - 12) * 2 / 2⌉
          (min innerW innerH / 2 - 20 - 12)
          ⌊(min innerW innerH / 2 - 20 - 12 - 20) / 12⌋ ∧
      (∀ y x : ℤ, 0 ≤ y → y < (V1.handleResize innerW innerH s).gridH →
        0 ≤ x → x < (V1.handleResize innerW innerH s).gridW →
        (V1.handleResize innerW innerH s).heightMap y x =
          (V1.handleResize innerW innerH s).targetMap y x) ∧
      (V1.handleResize innerW innerH s2).heightMap =
        (V1.handleResize innerW innerH s).heightMap ∧
      (V1.handleResize innerW innerH s).bladeAngle = s.bladeAngle) ∧
    ((V2.handleResize innerW innerH s).gridW =
        ⌈(min innerW innerH / 2 - 20 - 12) * 2 / 2⌉ ∧
      (∀ y x : ℤ, 0 ≤ y → y < (V2.handleResize innerW innerH s).gridH →
        0 ≤ x → x < (V2.handleResize innerW innerH s).gridW →
        (V2.handleResize innerW innerH s).heightMap y x =
          (if (x : ℝ) * 2 - (min innerW innerH / 2 - 20 - 12) ≥ 0 then
            (V2.handleResize innerW innerH s).targetMap y x else 0)) ∧
      (V2.handleResize innerW innerH s2).heightMap =
        (V2.handleResize innerW innerH s).heightMap ∧
      (V2.handleResize innerW innerH s).bladeAngle = s.bladeAngle) := by
  constructor
  · refine ⟨rfl, rfl, rfl, ?_, rfl, rfl⟩
    intro y x hy0 hy1 hx0 hx1
    exact if_pos ⟨hy0, hy1, hx0, hx1⟩
  · refine ⟨rfl, ?_, rfl, rfl⟩
    intro y x hy0 hy1 hx0 hx1
    exact if_pos ⟨hy0, hy1, hx0, hx1⟩

/-
  Claim C4.
-/

/-- The clamp to [-3, 3] of the additive-noise variant sends nonzero inputs
to nonzero outputs. -/
theorem clamp3_ne_zero (v : ℝ) (hv : v ≠ 0) : max (-3 : ℝ) (min 3 v) ≠ 0 := by
  rcases lt_or_gt_of_ne hv with h | h
  · have h1 : min (3 : ℝ) v = v := min_eq_right (by linarith)
    rw [h1]
    exact ne_of_lt (max_lt (by norm_num) h)
  · have h1 : (0 : ℝ) < min 3 v := lt_min (by norm_num) h
    exact ne_of_gt (lt_of_lt_of_le h1 (le_max_right _ _))

/-- Claim C4 (amended): the no-op region of the disturbance operation is the
set of points strictly farther than gardenRadius - 10 from the centre (the
code margin is 10 and the guard is strict); for such points both the
additive-noise disturbance and the conserving interaction leave the height
field unchanged.  At distance exactly gardenRadius - 10 the operation can
modify the field, see the counterexample. -/
theorem claim_c4_amended (gw gh : ℤ) (R cX cY screenX screenY strength : ℝ)
    (b : Bool) (m : HeightMap)
    (hd : Real.sqrt ((screenX - cX) * (screenX - cX) +
        (screenY - cY) * (screenY - cY)) > R - 10) :
    V1.disturbSand gw gh R cX cY screenX screenY strength m = m ∧
    V2.processInteraction gw gh R cX cY b (some (screenX, screenY)) m = m := by
  constructor
  · funext y x
    simp only [V1.disturbSand]
    rw [if_pos hd]
  · cases b
    · rfl
    · simp only [V2.processInteraction]
      rw [if_pos hd]

/-- Witness for the amended claim C4: a touch at distance 91 > 90 from the
centre leaves the field unchanged in both variants. -/
theorem claim_c4_amended_witness :
    V1.disturbSand 100 100 100 0 0 91 0 3 zeroMap = zeroMap ∧
    V2.processInteraction 100 100 100 0 0 true (some (91, 0)) zeroMap = zeroMap :=
  claim_c4_amended 100 100 100 0 0 91 0 3 true zeroMap (by
    rw [show ((91 : ℝ) - 0) * (91 - 0) + (0 - 0) * (0 - 0) = 91 ^ 2 by norm_num,
      Real.sqrt_sq (by norm_num : (0 : ℝ) ≤ 91)]
    norm_num)

/-- Claim C4, counterexample: a touch point at distance exactly
gardenRadius - 10 = 90 from the centre is not rejected by the guard, and
disturbSand changes the height field there, so the claimed no-op for
distance at least gardenRadius minus the margin fails at the boundary. -/
theorem claim_c4_counterexample :
    Real.sqrt (((90 : ℝ) - 0) * (90 - 0) + (0 - 0) * (0 - 0)) = 100 - 10 ∧
    V1.disturbSand 100 100 100 0 0 90 0 3 zeroMap ≠ zeroMap := by
  have hs : Real.sqrt (((90 : ℝ) - 0) * (90 - 0) + (0 - 0) * (0 - 0)) = 90 := by
    rw [show ((90 : ℝ) - 0) * (90 - 0) + (0 - 0) * (0 - 0) = 90 ^ 2 by norm_num,
      Real.sqrt_sq (by norm_num : (0 : ℝ) ≤ 90)]
  refine ⟨by rw [hs]; norm_num, ?_⟩
  intro heq
  have hval := congrFun (congrFun heq 50) 95
  have hguard : ¬ Real.sqrt (((90 : ℝ) - 0) * (90 - 0) + (0 - 0) * (0 - 0)) > 100 - 10 := by
    rw [hs]; norm_num
  have hgx : (⌊((90 : ℝ) - 0 + 100) / 2⌋ : ℤ) = 95 := by
    rw [show ((90 : ℝ) - 0 + 100) / 2 = ((95 : ℤ) : ℝ) by norm_num]
    exact Int.floor_intCast 95
  have hgy : (⌊((0 : ℝ) - 0 + 100) / 2⌋ : ℤ) = 50 := by
    rw [show ((0 : ℝ) - 0 + 100) / 2 = ((50 : ℤ) : ℝ) by norm_num]
    exact Int.floor_intCast 50
  simp only [V1.disturbSand, zeroMap] at hval
  rw [if_neg hguard] at hval
  rw [hgx, hgy] at hval
  norm_num [Real.sqrt_zero] at hval
  have hsin : Real.sin ((95 / 2 : ℝ)) ≠ 0 := by
    rw [show (95 / 2 : ℝ) = ((95 / 2 : ℚ) : ℝ) by norm_num]
    exact sin_ratCast_ne_zero (95 / 2) (by norm_num)
  have hcos : Real.cos ((35 : ℝ)) ≠ 0 := by
    rw [show (35 : ℝ) = ((35 : ℚ) : ℝ) by norm_num]
    exact cos_ratCast_ne_zero 35
  exact clamp3_ne_zero _ (mul_ne_zero (mul_ne_zero hsin hcos) (by norm_num)) hval

/-
  Claim C6.
-/

/-- Cells outside the grid are untouched by spreadToNeighbors. -/
theorem spreadToNeighbors_frame (gw gh : ℤ) (m : HeightMap) (originX originY : ℤ)
    (amount bladeDir : ℝ) (y x : ℤ) (hout : ¬(0 ≤ x ∧ x < gw ∧ 0 ≤ y ∧ y < gh)) :
    V2.spreadToNeighbors gw gh m originX originY amount bladeDir y x = m y x := by
  simp only [V2.spreadToNeighbors]
  split
  · rfl
  · split
    · next hc =>
      exact updateCell_other (by rintro ⟨rfl, rfl⟩; exact hout hc)
    · rfl

/-- Cells outside the grid are untouched by one side of the fixed-rate sweep. -/
theorem sweepSide1_frame (gw gh : ℤ) (R bladeAngle sideAngle : ℝ) (isComb : Bool)
    (target m : HeightMap) (y x : ℤ) (hout : ¬(0 ≤ x ∧ x < gw ∧ 0 ≤ y ∧ y < gh)) :
    V1.sweepSide gw gh R bladeAngle sideAngle isComb target m y x = m y x := by
  unfold V1.sweepSide
  refine foldl_preserves (fun mm : HeightMap => mm y x = m y x) _ ?_ _ _ rfl
  intro m1 r h1
  refine foldl_preserves (fun mm : HeightMap => mm y x = m y x) _ ?_ _ _ h1
  intro m2 a h2
  dsimp only
  split
  · next hc =>
    have hne : ∀ v, updateCell m2 ⌊(Real.sin (bladeAngle + a + sideAngle) * r + R) / 2⌋
        ⌊(Real.cos (bladeAngle + a + sideAngle) * r + R) / 2⌋ v y x = m y x := by
      intro v
      rw [updateCell_other (by rintro ⟨rfl, rfl⟩; exact hout hc)]
      exact h2
    split
    · exact hne _
    · exact hne _
  · exact h2

/-- Cells outside the grid are untouched by one side of the graded-rate sweep. -/
theorem sweepSide2_frame (gw gh : ℤ) (R speed bladeAngle sideAngle : ℝ) (isComb : Bool)
    (target m : HeightMap) (y x : ℤ) (hout : ¬(0 ≤ x ∧ x < gw ∧ 0 ≤ y ∧ y < gh)) :
    V2.sweepSide gw gh R speed bladeAngle sideAngle isComb target m y x = m y x := by
  unfold V2.sweepSide
  refine foldl_preserves (fun mm : HeightMap => mm y x = m y x) _ ?_ _ _ rfl
  intro m1 r h1
  refine foldl_preserves (fun mm : HeightMap => mm y x = m y x) _ ?_ _ _ h1
  intro m2 a h2
  dsimp only
  split
  · next hc =>
    have hne : ∀ v, updateCell m2 ⌊(Real.sin (bladeAngle + a + sideAngle) * r + R) / 2⌋
        ⌊(Real.cos (bladeAngle + a + sideAngle) * r + R) / 2⌋ v y x = m y x := by
      intro v
      rw [updateCell_other (by rintro ⟨rfl, rfl⟩; exact hout hc)]
      exact h2
    split
    · split
      · rw [spreadToNeighbors_frame _ _ _ _ _ _ _ _ _ hout]
        exact hne _
      · exact hne _
    · split
      · rw [spreadToNeighbors_frame _ _ _ _ _ _ _ _ _ hout]
        exact hne _
      · exact hne _
  · exact h2

/-- Cells outside the grid are untouched by the dig pass. -/
theorem digPassMap_frame (gw gh gridX gridY : ℤ) (m : HeightMap) (y x : ℤ)
    (hout : ¬(0 ≤ x ∧ x < gw ∧ 0 ≤ y ∧ y < gh)) :
    V2.digPassMap gw gh gridX gridY m y x = m y x := by
  simp only [V2.digPassMap]
  rw [if_neg]
  rintro ⟨-, -, -, -, h5, h6, h7, h8, -, -⟩
  exact hout ⟨h5, h6, h7, h8⟩

/-- Cells outside the grid are untouched by digHoleWithConservation. -/
theorem digHole_frame_out (gw gh : ℤ) (R sx sy cx cy : ℝ) (m : HeightMap) (y x : ℤ)
    (hout : ¬(0 ≤ x ∧ x < gw ∧ 0 ≤ y ∧ y < gh)) :
    V2.digHoleWithConservation gw gh R sx sy cx cy m y x = m y x := by
  simp only [V2.digHoleWithConservation]
  split
  · rw [if_neg, digPassMap_frame _ _ _ _ _ _ _ hout]
    rintro ⟨-, -, -, -, h5, h6, h7, h8, -, -, -⟩
    exact hout ⟨by omega, by omega, by omega, by omega⟩
  · exact digPassMap_frame _ _ _ _ _ _ _ hout

/-- Cells at or beyond the active radius receive no ring deposit: on them
digHoleWithConservation coincides with the bare dig pass. -/
theorem digHole_ring_inactive (gw gh : ℤ) (R sx sy cx cy : ℝ) (m : HeightMap) (y x : ℤ)
    (hfar : ¬ (cellGardenDist R y x < R - 5)) :
    V2.digHoleWithConservation gw gh R sx sy cx cy m y x =
      V2.digPassMap gw gh (V2.digGridX R sx cx) (V2.digGridY R sy cy) m y x := by
  simp only [V2.digHoleWithConservation]
  split
  · rw [if_neg]
    rintro ⟨-, -, -, -, -, -, -, -, -, -, h11⟩
    rw [show V2.digGridY R sy cy + (y - V2.digGridY R sy cy) = y by ring,
        show V2.digGridX R sx cx + (x - V2.digGridX R sx cx) = x by ring] at h11
    exact hfar h11
  · rfl

/-- Claim C6 (amended): all writes of every operation are bounds-checked, so
cells outside the grid are never modified by disturbSand, by either blade
sweep, by digHoleWithConservation or by spreadToNeighbors; and the
conservation deposit ring never modifies a cell at or beyond the active
radius gardenRadius - 5, since ring membership requires world distance
below it.  In-grid cells at or beyond the active radius are however not
inert: disturbSand can modify them (see the counterexample). -/
theorem claim_c6_amended (gw gh : ℤ)
    (R cX cY screenX screenY strength speed bladeAngle amount : ℝ)
    (target m : HeightMap) (originX originY y x : ℤ)
    (hout : ¬ (0 ≤ x ∧ x < gw ∧ 0 ≤ y ∧ y < gh)) :
    (V1.disturbSand gw gh R cX cY screenX screenY strength m y x = m y x ∧
      V1.applyBladeEffects gw gh R bladeAngle target m y x = m y x ∧
      V2.digHoleWithConservation gw gh R screenX screenY cX cY m y x = m y x ∧
      V2.spreadToNeighbors gw gh m originX originY amount bladeAngle y x = m y x ∧
      V2.applyBladeEffects gw gh R speed bladeAngle target m y x = m y x) ∧
    (∀ y2 x2 : ℤ, ¬ (cellGardenDist R y2 x2 < R - 5) →
      V2.digHoleWithConservation gw gh R screenX screenY cX cY m y2 x2 =
        V2.digPassMap gw gh (V2.digGridX R screenX cX) (V2.digGridY R screenY cY) m y2 x2) := by
  refine ⟨⟨?_, ?_, ?_, ?_, ?_⟩, ?_⟩
  · simp only [V1.disturbSand]
    split
    · rfl
    · rw [if_neg]
      rintro ⟨-, -, -, -, h5, h6, h7, h8, -⟩
      exact hout ⟨h5, h6, h7, h8⟩
  · unfold V1.applyBladeEffects
    rw [sweepSide1_frame _ _ _ _ _ _ _ _ _ _ hout,
        sweepSide1_frame _ _ _ _ _ _ _ _ _ _ hout]
  · exact digHole_frame_out _ _ _ _ _ _ _ _ _ _ hout
  · exact spreadToNeighbors_frame _ _ _ _ _ _ _ _ _ hout
  · unfold V2.applyBladeEffects
    rw [sweepSide2_frame _ _ _ _ _ _ _ _ _ _ _ hout,
        sweepSide2_frame _ _ _ _ _ _ _ _ _ _ _ hout]
  · intro y2 x2 hfar
    exact digHole_ring_inactive _ _ _ _ _ _ _ _ _ _ hfar

/-- Witness for the amended claim C6 at the out-of-grid cell (-1, 0). -/
theorem claim_c6_amended_witness :
    (V1.disturbSand 100 100 100 0 0 90 0 3 zeroMap (-1) 0 = zeroMap (-1) 0 ∧
      V1.applyBladeEffects 100 100 100 0 zeroMap zeroMap (-1) 0 = zeroMap (-1) 0 ∧
      V2.digHoleWithConservation 100 100 100 90 0 0 0 zeroMap (-1) 0 = zeroMap (-1) 0 ∧
      V2.spreadToNeighbors 100 100 zeroMap 0 0 1 0 (-1) 0 = zeroMap (-1) 0 ∧
      V2.applyBladeEffects 100 100 100 0.004 0 zeroMap zeroMap (-1) 0 = zeroMap (-1) 0) ∧
    (∀ y2 x2 : ℤ, ¬ (cellGardenDist 100 y2 x2 < 100 - 5) →
      V2.digHoleWithConservation 100 100 100 90 0 0 0 zeroMap y2 x2 =
        V2.digPassMap 100 100 (V2.digGridX 100 90 0) (V2.digGridY 100 0 0) zeroMap y2 x2) :=
  claim_c6_amended 100 100 100 0 0 90 0 3 0.004 0 1 zeroMap zeroMap 0 0 (-1) 0
    (by intro h; exact absurd h.2.2.1 (by norm_num))

/-- Claim C6, counterexample: disturbSand at an admissible touch point
modifies the in-grid cell (50, 99), whose world distance 98 from the centre
is at least the active radius 95; cells at or beyond the active radius are
therefore not inert. -/
theorem claim_c6_counterexample :
    ¬ cellGardenDist 100 50 99 < 100 - 5 ∧
    V1.disturbSand 100 100 100 0 0 90 0 3 zeroMap 50 99 ≠ zeroMap 50 99 := by
  constructor
  · have h9604 : Real.sqrt 9604 = 98 := by
      rw [show (9604 : ℝ) = 98 ^ 2 by norm_num]
      exact Real.sqrt_sq (by norm_num)
    unfold cellGardenDist
    push_cast
    norm_num [h9604]
  · intro hval0
    have hguard : ¬ Real.sqrt (((90 : ℝ) - 0) * (90 - 0) + (0 - 0) * (0 - 0)) > 100 - 10 := by
      rw [show ((90 : ℝ) - 0) * (90 - 0) + (0 - 0) * (0 - 0) = 90 ^ 2 by norm_num,
        Real.sqrt_sq (by norm_num : (0 : ℝ) ≤ 90)]
      norm_num
    have hgx : (⌊((90 : ℝ) - 0 + 100) / 2⌋ : ℤ) = 95 := by
      rw [show ((90 : ℝ) - 0 + 100) / 2 = ((95 : ℤ) : ℝ) by norm_num]
      exact Int.floor_intCast 95
    have hgy : (⌊((0 : ℝ) - 0 + 100) / 2⌋ : ℤ) = 50 := by
      rw [show ((0 : ℝ) - 0 + 100) / 2 = ((50 : ℤ) : ℝ) by norm_num]
      exact Int.floor_intCast 50
    have h16 : Real.sqrt 16 = 4 := by
      rw [show (16 : ℝ) = 4 ^ 2 by norm_num]
      exact Real.sqrt_sq (by norm_num)
    simp only [V1.disturbSand, zeroMap] at hval0
    rw [if_neg hguard, hgx, hgy] at hval0
    norm_num [h16] at hval0
    have hsin : Real.sin ((99 / 2 : ℝ)) ≠ 0 := by
      rw [show (99 / 2 : ℝ) = ((99 / 2 : ℚ) : ℝ) by norm_num]
      exact sin_ratCast_ne_zero (99 / 2) (by norm_num)
    have hcos : Real.cos ((35 : ℝ)) ≠ 0 := by
      rw [show (35 : ℝ) = ((35 : ℚ) : ℝ) by norm_num]
      exact cos_ratCast_ne_zero 35
    exact clamp3_ne_zero _
      (mul_ne_zero (mul_ne_zero (mul_ne_zero hsin hcos) (by norm_num)) (by norm_num)) hval0

/-
  Dig-pass lemmas shared by the boundedness, locality and conservation claims.
-/

theorem removedAt_nonneg (gw gh gridX gridY : ℤ) (m : HeightMap) (p : ℤ × ℤ) :
    0 ≤ V2.removedAt gw gh gridX gridY m p := by
  simp only [V2.removedAt]
  split
  · next h => exact le_of_lt h.2.2.2.2.2
  · exact le_refl 0

theorem totalRemoved_nonneg (gw gh gridX gridY : ℤ) (m : HeightMap) :
    0 ≤ V2.totalRemoved gw gh gridX gridY m := by
  unfold V2.totalRemoved
  apply List.sum_nonneg
  intro a ha
  obtain ⟨p, hp, rfl⟩ := List.mem_map.mp ha
  exact removedAt_nonneg gw gh gridX gridY m p

theorem totalRemoved_ge_removedAt (gw gh gridX gridY : ℤ) (m : HeightMap) (p : ℤ × ℤ)
    (hp : p ∈ offsetList 18) :
    V2.removedAt gw gh gridX gridY m p ≤ V2.totalRemoved gw gh gridX gridY m := by
  unfold V2.totalRemoved
  refine List.single_le_sum ?_ _ (List.mem_map_of_mem _ hp)
  intro a ha
  obtain ⟨q, hq, rfl⟩ := List.mem_map.mp ha
  exact removedAt_nonneg gw gh gridX gridY m q

/-- The dig pass never raises a cell and never sinks it below -6. -/
theorem digPassMap_bounds (gw gh gridX gridY : ℤ) (m : HeightMap) (y x : ℤ)
    (hlow : -6 ≤ m y x) :
    -6 ≤ V2.digPassMap gw gh gridX gridY m y x ∧
    V2.digPassMap gw gh gridX gridY m y x ≤ m y x := by
  simp only [V2.digPassMap, V2.minHeight, V2.digStrength]
  split
  · constructor
    · exact le_max_left _ _
    · apply max_le hlow
      have hs := mul_self_nonneg
        (1 - offDist (y - gridY, x - gridX) / (V2.digRadius : ℝ))
      nlinarith [hs]
  · exact ⟨hlow, le_refl _⟩

/-- Cells strictly beyond the dig radius are untouched by the dig pass. -/
theorem digPassMap_far (gw gh gridX gridY : ℤ) (m : HeightMap) (y x : ℤ)
    (hfar : ¬ offDist (y - gridY, x - gridX) ≤ (V2.digRadius : ℝ)) :
    V2.digPassMap gw gh gridX gridY m y x = m y x := by
  simp only [V2.digPassMap]
  rw [if_neg]
  rintro ⟨-, -, -, -, -, -, -, -, h9, -⟩
  exact hfar h9

/-- Ring cells carry a strictly positive weight. -/
theorem ringWeight_pos {gw gh gridX gridY : ℤ} {R : ℝ} {p : ℤ × ℤ}
    (h : V2.RingCond gw gh gridX gridY R p) : 0 < V2.ringWeight p := by
  obtain ⟨-, -, -, -, -, -, -, -, h9, h10, -⟩ := h
  unfold V2.ringWeight
  simp only [V2.digRadius, V2.duneSpreadRadius] at h9 h10 ⊢
  push_cast at h9 h10 ⊢
  linarith

/-- The total ring weight is positive and dominates every single ring weight
as soon as some offset satisfies the ring condition. -/
theorem totalWeight_ge {gw gh gridX gridY : ℤ} {R : ℝ} {p0 : ℤ × ℤ}
    (h : V2.RingCond gw gh gridX gridY R p0) :
    0 < V2.totalWeight gw gh gridX gridY R ∧
    V2.ringWeight p0 ≤ V2.totalWeight gw gh gridX gridY R := by
  have hmem : p0 ∈ offsetList 22 := by
    obtain ⟨h1, h2, h3, h4, -⟩ := h
    exact mem_offsetList.mpr (by push_cast; omega)
  have hnn : ∀ a ∈ (offsetList 22).map (fun p =>
      if V2.RingCond gw gh gridX gridY R p then V2.ringWeight p else 0), 0 ≤ a := by
    intro a ha
    obtain ⟨q, hq, rfl⟩ := List.mem_map.mp ha
    split
    · next hcq => exact (ringWeight_pos hcq).le
    · exact le_refl 0
  have hle : (if V2.RingCond gw gh gridX gridY R p0 then V2.ringWeight p0 else 0) ≤
      V2.totalWeight gw gh gridX gridY R := by
    unfold V2.totalWeight
    exact List.single_le_sum hnn _ (List.mem_map_of_mem _ hmem)
  rw [if_pos h] at hle
  exact ⟨lt_of_lt_of_le (ringWeight_pos h) hle, hle⟩

/-- Every ring share of a positive removed total is nonnegative. -/
theorem share_nonneg {gw gh gridX gridY : ℤ} {R T : ℝ} {p : ℤ × ℤ}
    (hring : V2.RingCond gw gh gridX gridY R p) (hT : 0 < T) :
    0 ≤ V2.ringWeight p / V2.totalWeight gw gh gridX gridY R * T := by
  have hw := ringWeight_pos hring
  have hW := (totalWeight_ge hring).1
  positivity

/-
  Claim C10.
-/

/-- Claim C10: on a height field within the height bounds, every call of
digHoleWithConservation is local and sign-separated: only cells within
offset distance digRadius + duneSpreadRadius of the mapped centre cell can
change; every dig-disk cell (offset distance at most digRadius) has its
height not increased; every ring cell (offset distance between
digRadius + 1 and digRadius + duneSpreadRadius) has its height not
decreased; the two regions are disjoint; and every other cell is unchanged. -/
theorem claim_c10_dig_locality (gw gh : ℤ) (R sx sy cx cy : ℝ) (m : HeightMap)
    (hm : Bounded 6 m) :
    (∀ y x : ℤ,
      (V2.digRadius : ℝ) + (V2.duneSpreadRadius : ℝ) <
          offDist (y - V2.digGridY R sy cy, x - V2.digGridX R sx cx) →
      V2.digHoleWithConservation gw gh R sx sy cx cy m y x = m y x) ∧
    (∀ y x : ℤ,
      offDist (y - V2.digGridY R sy cy, x - V2.digGridX R sx cx) ≤ (V2.digRadius : ℝ) →
      V2.digHoleWithConservation gw gh R sx sy cx cy m y x ≤ m y x) ∧
    (∀ y x : ℤ,
      (V2.digRadius : ℝ) + 1 ≤ offDist (y - V2.digGridY R sy cy, x - V2.digGridX R sx cx) →
      offDist (y - V2.digGridY R sy cy, x - V2.digGridX R sx cx) ≤
          (V2.digRadius : ℝ) + (V2.duneSpreadRadius : ℝ) →
      m y x ≤ V2.digHoleWithConservation gw gh R sx sy cx cy m y x) ∧
    (∀ p : ℤ × ℤ,
      ¬ (offDist p ≤ (V2.digRadius : ℝ) ∧ (V2.digRadius : ℝ) + 1 ≤ offDist p)) ∧
    (∀ y x : ℤ,
      ¬ offDist (y - V2.digGridY R sy cy, x - V2.digGridX R sx cx) ≤ (V2.digRadius : ℝ) →
      ¬ ((V2.digRadius : ℝ) + 1 ≤
            offDist (y - V2.digGridY R sy cy, x - V2.digGridX R sx cx) ∧
          offDist (y - V2.digGridY R sy cy, x - V2.digGridX R sx cx) ≤
            (V2.digRadius : ℝ) + (V2.duneSpreadRadius : ℝ)) →
      V2.digHoleWithConservation gw gh R sx sy cx cy m y x = m y x) := by
  have hother : ∀ y x : ℤ,
      ¬ offDist (y - V2.digGridY R sy cy, x - V2.digGridX R sx cx) ≤ (V2.digRadius : ℝ) →
      ¬ ((V2.digRadius : ℝ) + 1 ≤
            offDist (y - V2.digGridY R sy cy, x - V2.digGridX R sx cx) ∧
          offDist (y - V2.digGridY R sy cy, x - V2.digGridX R sx cx) ≤
            (V2.digRadius : ℝ) + (V2.duneSpreadRadius : ℝ)) →
      V2.digHoleWithConservation gw gh R sx sy cx cy m y x = m y x := by
    intro y x h1 h2
    have hdp := digPassMap_far gw gh (V2.digGridX R sx cx) (V2.digGridY R sy cy) m y x h1
    simp only [V2.digHoleWithConservation]
    split
    · rw [if_neg, hdp]
      intro hrc
      obtain ⟨-, -, -, -, -, -, -, -, h9, h10, -⟩ := hrc
      exact h2 ⟨h9, h10⟩
    · exact hdp
  refine ⟨?_, ?_, ?_, ?_, hother⟩
  · intro y x h1
    have hsp : (0 : ℝ) ≤ (V2.duneSpreadRadius : ℝ) := by
      simp only [V2.duneSpreadRadius]
      norm_num
    refine hother y x (by linarith) ?_
    rintro ⟨-, hb⟩
    linarith
  · intro y x h1
    have hdp := digPassMap_bounds gw gh (V2.digGridX R sx cx) (V2.digGridY R sy cy) m y x
      (hm y x).1
    simp only [V2.digHoleWithConservation]
    split
    · rw [if_neg]
      · exact hdp.2
      · intro hrc
        obtain ⟨-, -, -, -, -, -, -, -, h9, -, -⟩ := hrc
        linarith
    · exact hdp.2
  · intro y x h1 h2
    have hdp := digPassMap_far gw gh (V2.digGridX R sx cx) (V2.digGridY R sy cy) m y x
      (by intro hc; linarith)
    simp only [V2.digHoleWithConservation]
    split
    · next hguard =>
      split
      · next hrc =>
        rw [hdp]
        refine le_min ?_ ?_
        · simp only [V2.maxHeight]
          exact (hm y x).2
        · have hsh := share_nonneg hrc hguard.1
          linarith
      · rw [hdp]
    · rw [hdp]
  · intro p
    rintro ⟨ha, hb⟩
    linarith

/-- Witness for claim C10: the dig at the garden centre of the all-zero
height field. -/
theorem claim_c10_witness :
    (∀ y x : ℤ,
      (V2.digRadius : ℝ) + (V2.duneSpreadRadius : ℝ) <
          offDist (y - V2.digGridY 100 0 0, x - V2.digGridX 100 0 0) →
      V2.digHoleWithConservation 100 100 100 0 0 0 0 zeroMap y x = zeroMap y x) ∧
    (∀ y x : ℤ,
      offDist (y - V2.digGridY 100 0 0, x - V2.digGridX 100 0 0) ≤ (V2.digRadius : ℝ) →
      V2.digHoleWithConservation 100 100 100 0 0 0 0 zeroMap y x ≤ zeroMap y x) ∧
    (∀ y x : ℤ,
      (V2.digRadius : ℝ) + 1 ≤ offDist (y - V2.digGridY 100 0 0, x - V2.digGridX 100 0 0) →
      offDist (y - V2.digGridY 100 0 0, x - V2.digGridX 100 0 0) ≤
          (V2.digRadius : ℝ) + (V2.duneSpreadRadius : ℝ) →
      zeroMap y x ≤ V2.digHoleWithConservation 100 100 100 0 0 0 0 zeroMap y x) ∧
    (∀ p : ℤ × ℤ,
      ¬ (offDist p ≤ (V2.digRadius : ℝ) ∧ (V2.digRadius : ℝ) + 1 ≤ offDist p)) ∧
    (∀ y x : ℤ,
      ¬ offDist (y - V2.digGridY 100 0 0, x - V2.digGridX 100 0 0) ≤ (V2.digRadius : ℝ) →
      ¬ ((V2.digRadius : ℝ) + 1 ≤
            offDist (y - V2.digGridY 100 0 0, x - V2.digGridX 100 0 0) ∧
          offDist (y - V2.digGridY 100 0 0, x - V2.digGridX 100 0 0) ≤
            (V2.digRadius : ℝ) + (V2.duneSpreadRadius : ℝ)) →
      V2.digHoleWithConservation 100 100 100 0 0 0 0 zeroMap y x = zeroMap y x) :=
  claim_c10_dig_locality 100 100 100 0 0 0 0 zeroMap
    (fun y x => by norm_num [zeroMap])

/-
  Claim C1.
-/

theorem updateCell_bounded {b : ℝ} {m : HeightMap} (hm : Bounded b m) (gy gx : ℤ) {v : ℝ}
    (hv : -b ≤ v ∧ v ≤ b) : Bounded b (updateCell m gy gx v) := by
  intro y x
  unfold updateCell
  split
  · exact hv
  · exact hm y x

theorem disturbSand_bounds (gw gh : ℤ) (R cX cY sx sy st : ℝ) (m : HeightMap)
    (hm : Bounded 3 m) : Bounded 3 (V1.disturbSand gw gh R cX cY sx sy st m) := by
  intro y x
  simp only [V1.disturbSand]
  split
  · exact hm y x
  · split
    · constructor
      · exact le_max_left _ _
      · exact max_le (by norm_num) (min_le_left _ _)
    · exact hm y x

theorem combCell_bounds (c t : ℝ) (hc1 : -3 ≤ c) (hc2 : c ≤ 3) (ht : |t| ≤ 1) :
    -3 ≤ V1.combCell c t ∧ V1.combCell c t ≤ 3 := by
  rw [abs_le] at ht
  unfold V1.combCell V1.waveApplicationRate
  constructor <;> linarith [ht.1, ht.2]

theorem smoothCell_bounds (c : ℝ) (hc1 : -3 ≤ c) (hc2 : c ≤ 3) :
    -3 ≤ V1.smoothCell c ∧ V1.smoothCell c ≤ 3 := by
  unfold V1.smoothCell V1.healingRate
  constructor <;> linarith

theorem sweepSide1_bounds (gw gh : ℤ) (R bladeAngle sideAngle : ℝ) (isComb : Bool)
    (target m : HeightMap) (hm : Bounded 3 m) (ht : TargetBounded target) :
    Bounded 3 (V1.sweepSide gw gh R bladeAngle sideAngle isComb target m) := by
  unfold V1.sweepSide
  refine foldl_preserves (Bounded 3) _ ?_ _ _ hm
  intro m1 r h1
  refine foldl_preserves (Bounded 3) _ ?_ _ _ h1
  intro m2 a h2
  dsimp only
  split
  · split
    · exact updateCell_bounded h2 _ _
        (combCell_bounds _ _ (h2 _ _).1 (h2 _ _).2 (ht _ _))
    · exact updateCell_bounded h2 _ _
        (smoothCell_bounds _ (h2 _ _).1 (h2 _ _).2)
  · exact h2

theorem combCellNewHeight_bounds (c t : ℝ) (hc1 : -6 ≤ c) (hc2 : c ≤ 6) (ht : |t| ≤ 1) :
    -6 ≤ V2.combCellNewHeight c t ∧ V2.combCellNewHeight c t ≤ 6 := by
  rw [abs_le] at ht
  simp only [V2.combCellNewHeight, V2.pushStrength]
  split
  · constructor <;> linarith [ht.1, ht.2]
  · split
    · constructor <;> linarith [ht.1, ht.2]
    · constructor <;> linarith [ht.1, ht.2]

theorem smoothCellNewHeight_bounds (c : ℝ) (hc1 : -6 ≤ c) (hc2 : c ≤ 6) :
    -6 ≤ V2.smoothCellNewHeight c ∧ V2.smoothCellNewHeight c ≤ 6 := by
  simp only [V2.smoothCellNewHeight, V2.pushStrength]
  split
  · constructor <;> linarith
  · norm_num

theorem spreadToNeighbors_bounds (gw gh : ℤ) (m : HeightMap) (ox oy : ℤ)
    (amount dir : ℝ) (hm : Bounded 6 m) :
    Bounded 6 (V2.spreadToNeighbors gw gh m ox oy amount dir) := by
  simp only [V2.spreadToNeighbors]
  split
  · exact hm
  · split
    · refine updateCell_bounded hm _ _ ⟨?_, ?_⟩
      · simp only [V2.minHeight]
        exact le_max_left _ _
      · simp only [V2.minHeight, V2.maxHeight]
        exact max_le (by norm_num) (min_le_left _ _)
    · exact hm

theorem digHole_bounds (gw gh : ℤ) (R sx sy cx cy : ℝ) (m : HeightMap)
    (hm : Bounded 6 m) :
    Bounded 6 (V2.digHoleWithConservation gw gh R sx sy cx cy m) := by
  intro y x
  have hdp := digPassMap_bounds gw gh (V2.digGridX R sx cx) (V2.digGridY R sy cy) m y x
    (hm y x).1
  simp only [V2.digHoleWithConservation]
  split
  · next hguard =>
    split
    · next hrc =>
      have hsh := share_nonneg hrc hguard.1
      constructor
      · refine le_min ?_ ?_
        · simp only [V2.maxHeight]
          norm_num
        · linarith [hdp.1]
      · simp only [V2.maxHeight]
        exact min_le_left _ _
    · exact ⟨hdp.1, le_trans hdp.2 (hm y x).2⟩
  · exact ⟨hdp.1, le_trans hdp.2 (hm y x).2⟩

theorem sweepSide2_bounds (gw gh : ℤ) (R speed bladeAngle sideAngle : ℝ) (isComb : Bool)
    (target m : HeightMap) (hm : Bounded 6 m) (ht : TargetBounded target) :
    Bounded 6 (V2.sweepSide gw gh R speed bladeAngle sideAngle isComb target m) := by
  unfold V2.sweepSide
  refine foldl_preserves (Bounded 6) _ ?_ _ _ hm
  intro m1 r h1
  refine foldl_preserves (Bounded 6) _ ?_ _ _ h1
  intro m2 a h2
  dsimp only
  split
  · split
    · split
      · exact spreadToNeighbors_bounds _ _ _ _ _ _ _
          (updateCell_bounded h2 _ _
            (combCellNewHeight_bounds _ _ (h2 _ _).1 (h2 _ _).2 (ht _ _)))
      · exact updateCell_bounded h2 _ _
          (combCellNewHeight_bounds _ _ (h2 _ _).1 (h2 _ _).2 (ht _ _))
    · split
      · exact spreadToNeighbors_bounds _ _ _ _ _ _ _
          (updateCell_bounded h2 _ _
            (smoothCellNewHeight_bounds _ (h2 _ _).1 (h2 _ _).2))
      · exact updateCell_bounded h2 _ _
          (smoothCellNewHeight_bounds _ (h2 _ _).1 (h2 _ _).2)
  · exact h2

/-- Claim C1: assuming every cell of the height field is within the bounds
of its variant ([-3, 3] in the additive-noise variant, [-6, 6] in the
conserving variant) and the target field is within the wave amplitude, the
height field remains within the bounds after disturbSand, after
digHoleWithConservation, after spreadToNeighbors, and after every per-cell
blade-sweep update on the comb and the smooth side in every rate branch, as
well as after the complete blade sweeps of both variants. -/
theorem claim_c1_boundedness :
    (∀ (gw gh : ℤ) (R cX cY sx sy st : ℝ) (m : HeightMap), Bounded 3 m →
      Bounded 3 (V1.disturbSand gw gh R cX cY sx sy st m)) ∧
    (∀ c t : ℝ, -3 ≤ c → c ≤ 3 → |t| ≤ 1 →
      (-3 ≤ V1.combCell c t ∧ V1.combCell c t ≤ 3) ∧
      (-3 ≤ V1.smoothCell c ∧ V1.smoothCell c ≤ 3)) ∧
    (∀ (gw gh : ℤ) (R bladeAngle : ℝ) (target m : HeightMap),
      Bounded 3 m → TargetBounded target →
      Bounded 3 (V1.applyBladeEffects gw gh R bladeAngle target m)) ∧
    (∀ (gw gh : ℤ) (R sx sy cx cy : ℝ) (m : HeightMap), Bounded 6 m →
      Bounded 6 (V2.digHoleWithConservation gw gh R sx sy cx cy m)) ∧
    (∀ (gw gh ox oy : ℤ) (amount dir : ℝ) (m : HeightMap), Bounded 6 m →
      Bounded 6 (V2.spreadToNeighbors gw gh m ox oy amount dir)) ∧
    (∀ c t : ℝ, -6 ≤ c → c ≤ 6 → |t| ≤ 1 →
      (-6 ≤ V2.combCellNewHeight c t ∧ V2.combCellNewHeight c t ≤ 6) ∧
      (-6 ≤ V2.smoothCellNewHeight c ∧ V2.smoothCellNewHeight c ≤ 6)) ∧
    (∀ (gw gh : ℤ) (R speed bladeAngle : ℝ) (target m : HeightMap),
      Bounded 6 m → TargetBounded target →
      Bounded 6 (V2.applyBladeEffects gw gh R speed bladeAngle target m)) := by
  refine ⟨?_, ?_, ?_, ?_, ?_, ?_, ?_⟩
  · exact disturbSand_bounds
  · intro c t h1 h2 h3
    exact ⟨combCell_bounds c t h1 h2 h3, smoothCell_bounds c h1 h2⟩
  · intro gw gh R bladeAngle target m hm ht
    unfold V1.applyBladeEffects
    exact sweepSide1_bounds _ _ _ _ _ _ _ _
      (sweepSide1_bounds _ _ _ _ _ _ _ _ hm ht) ht
  · exact digHole_bounds
  · intro gw gh ox oy amount dir m hm
    exact spreadToNeighbors_bounds _ _ _ _ _ _ _ hm
  · intro c t h1 h2 h3
    exact ⟨combCellNewHeight_bounds c t h1 h2 h3, smoothCellNewHeight_bounds c h1 h2⟩
  · intro gw gh R speed bladeAngle target m hm ht
    unfold V2.applyBladeEffects
    exact sweepSide2_bounds _ _ _ _ _ _ _ _ _
      (sweepSide2_bounds _ _ _ _ _ _ _ _ _ hm ht) ht

/-- Witness for claim C1 at the all-zero field and concrete parameters. -/
theorem claim_c1_witness :
    Bounded 3 (V1.disturbSand 100 100 100 0 0 90 0 3 zeroMap) ∧
    ((-3 ≤ V1.combCell 0 1 ∧ V1.combCell 0 1 ≤ 3) ∧
      (-3 ≤ V1.smoothCell 0 ∧ V1.smoothCell 0 ≤ 3)) ∧
    Bounded 3 (V1.applyBladeEffects 100 100 100 0 zeroMap zeroMap) ∧
    Bounded 6 (V2.digHoleWithConservation 100 100 100 0 0 0 0 zeroMap) ∧
    Bounded 6 (V2.spreadToNeighbors 100 100 zeroMap 0 0 1 0) ∧
    ((-6 ≤ V2.combCellNewHeight 0 1 ∧ V2.combCellNewHeight 0 1 ≤ 6) ∧
      (-6 ≤ V2.smoothCellNewHeight 0 ∧ V2.smoothCellNewHeight 0 ≤ 6)) ∧
    Bounded 6 (V2.applyBladeEffects 100 100 100 0.004 0 zeroMap zeroMap) := by
  obtain ⟨h1, h2, h3, h4, h5, h6, h7⟩ := claim_c1_boundedness
  have hb3 : Bounded 3 zeroMap := fun y x => by norm_num [zeroMap]
  have hb6 : Bounded 6 zeroMap := fun y x => by norm_num [zeroMap]
  have htb : TargetBounded zeroMap := fun y x => by norm_num [zeroMap, TargetBounded]
  exact ⟨h1 100 100 100 0 0 90 0 3 zeroMap hb3,
    h2 0 1 (by norm_num) (by norm_num) (by rw [abs_one]),
    h3 100 100 100 0 zeroMap zeroMap hb3 htb,
    h4 100 100 100 0 0 0 0 zeroMap hb6,
    h5 100 100 0 0 1 0 zeroMap hb6,
    h6 0 1 (by norm_num) (by norm_num) (by rw [abs_one]),
    h7 100 100 100 0.004 0 zeroMap zeroMap hb6 htb⟩

/-
  Claim C3.
-/

/-- A cell at the lower clamp bound loses no sand in the dig pass. -/
theorem neg_six_removed_zero (z : ℝ) : ¬ (0 < (-6 : ℝ) - max (-6) z) := by
  intro h
  have := le_max_left (-6 : ℝ) z
  linarith

/-- At a ring offset, digHoleWithConservation with positive removed total
deposits the clamped weighted share on top of the dig-pass height. -/
theorem digHole_at_ring (gw gh : ℤ) (R sx sy cx cy : ℝ) (m : HeightMap) (p1 p2 : ℤ)
    (hp : V2.RingCond gw gh (V2.digGridX R sx cx) (V2.digGridY R sy cy) R (p1, p2))
    (hT : 0 < V2.totalRemoved gw gh (V2.digGridX R sx cx) (V2.digGridY R sy cy) m) :
    V2.digHoleWithConservation gw gh R sx sy cx cy m
        (V2.digGridY R sy cy + p1) (V2.digGridX R sx cx + p2) =
      min V2.maxHeight
        (V2.digPassMap gw gh (V2.digGridX R sx cx) (V2.digGridY R sy cy) m
            (V2.digGridY R sy cy + p1) (V2.digGridX R sx cx + p2) +
          V2.ringWeight (p1, p2) /
              V2.totalWeight gw gh (V2.digGridX R sx cx) (V2.digGridY R sy cy) R *
            V2.totalRemoved gw gh (V2.digGridX R sx cx) (V2.digGridY R sy cy) m) := by
  simp only [V2.digHoleWithConservation]
  rw [if_pos ⟨hT, ⟨(p1, p2), hp⟩⟩,
    show V2.digGridY R sy cy + p1 - V2.digGridY R sy cy = p1 by ring,
    show V2.digGridX R sx cx + p2 - V2.digGridX R sx cx = p2 by ring,
    if_pos hp]

/-- When no sand was removed, digHoleWithConservation is just the dig pass. -/
theorem digHole_eq_digPass_of_not_pos (gw gh : ℤ) (R sx sy cx cy : ℝ) (m : HeightMap)
    (hT : ¬ 0 < V2.totalRemoved gw gh (V2.digGridX R sx cx) (V2.digGridY R sy cy) m) :
    V2.digHoleWithConservation gw gh R sx sy cx cy m =
      V2.digPassMap gw gh (V2.digGridX R sx cx) (V2.digGridY R sy cy) m := by
  funext y x
  simp only [V2.digHoleWithConservation]
  rw [if_neg]
  rintro ⟨hT2, -⟩
  exact hT hT2

/-- The dig pass does not touch ring cells. -/
theorem digPass_ring_unchanged (gw gh gridX gridY : ℤ) {R : ℝ} (m : HeightMap)
    {p1 p2 : ℤ} (hp : V2.RingCond gw gh gridX gridY R (p1, p2)) :
    V2.digPassMap gw gh gridX gridY m (gridY + p1) (gridX + p2) =
      m (gridY + p1) (gridX + p2) := by
  apply digPassMap_far
  rw [show gridY + p1 - gridY = p1 by ring, show gridX + p2 - gridX = p2 by ring]
  obtain ⟨-, -, -, -, -, -, -, -, h9, -, -⟩ := hp
  intro hc
  linarith

/-- Claim C3 (amended): in every call of digHoleWithConservation whose ring
is nonempty and in which no ring deposit hits the maxHeight clamp, the
quantity totalRemoved accumulated by the dig pass equals exactly (in real
arithmetic) the sum of the deposits added to the ring cells by the
redistribution pass of the same call. -/
theorem claim_c3_amended (gw gh : ℤ) (R sx sy cx cy : ℝ) (m : HeightMap)
    (hne : ∃ p, V2.RingCond gw gh (V2.digGridX R sx cx) (V2.digGridY R sy cy) R p)
    (hnc : ∀ p1 p2 : ℤ,
      V2.RingCond gw gh (V2.digGridX R sx cx) (V2.digGridY R sy cy) R (p1, p2) →
      V2.digPassMap gw gh (V2.digGridX R sx cx) (V2.digGridY R sy cy) m
          (V2.digGridY R sy cy + p1) (V2.digGridX R sx cx + p2) +
        V2.ringWeight (p1, p2) /
            V2.totalWeight gw gh (V2.digGridX R sx cx) (V2.digGridY R sy cy) R *
          V2.totalRemoved gw gh (V2.digGridX R sx cx) (V2.digGridY R sy cy) m ≤
        V2.maxHeight) :
    V2.ringDepositSum gw gh R sx sy cx cy m =
      V2.totalRemoved gw gh (V2.digGridX R sx cx) (V2.digGridY R sy cy) m := by
  rcases lt_or_le 0 (V2.totalRemoved gw gh (V2.digGridX R sx cx) (V2.digGridY R sy cy) m)
    with hT | hT
  · simp only [V2.ringDepositSum]
    trans ((offsetList 22).map (fun p =>
      (if V2.RingCond gw gh (V2.digGridX R sx cx) (V2.digGridY R sy cy) R p then
        V2.ringWeight p else 0) *
      (V2.totalRemoved gw gh (V2.digGridX R sx cx) (V2.digGridY R sy cy) m /
        V2.totalWeight gw gh (V2.digGridX R sx cx) (V2.digGridY R sy cy) R))).sum
    · apply congrArg List.sum
      apply List.map_congr_left
      intro p hp2
      obtain ⟨p1, p2⟩ := p
      dsimp only
      by_cases hc : V2.RingCond gw gh (V2.digGridX R sx cx) (V2.digGridY R sy cy) R (p1, p2)
      · rw [if_pos hc, if_pos hc, digHole_at_ring gw gh R sx sy cx cy m p1 p2 hc hT,
          min_eq_right (hnc p1 p2 hc)]
        ring
      · rw [if_neg hc, if_neg hc, zero_mul]
    · rw [List.sum_map_mul_right]
      show V2.totalWeight gw gh (V2.digGridX R sx cx) (V2.digGridY R sy cy) R *
        (V2.totalRemoved gw gh (V2.digGridX R sx cx) (V2.digGridY R sy cy) m /
          V2.totalWeight gw gh (V2.digGridX R sx cx) (V2.digGridY R sy cy) R) = _
      obtain ⟨p0, hp0⟩ := hne
      have hW := (totalWeight_ge hp0).1
      rw [mul_comm]
      exact div_mul_cancel₀ _ hW.ne'
  · have hT0 : V2.totalRemoved gw gh (V2.digGridX R sx cx) (V2.digGridY R sy cy) m = 0 :=
      le_antisymm hT (totalRemoved_nonneg _ _ _ _ _)
    rw [hT0]
    simp only [V2.ringDepositSum]
    apply List.sum_eq_zero
    intro a ha
    obtain ⟨p, hp, rfl⟩ := List.mem_map.mp ha
    rw [digHole_eq_digPass_of_not_pos gw gh R sx sy cx cy m (by rw [hT0]; exact lt_irrefl 0)]
    split
    · exact sub_self _
    · rfl

/-- Claim C3, counterexample: digging the centre of a garden whose field sits
everywhere at the maxHeight clamp removes at least 1/4 sand in the dig pass,
yet every ring deposit is clamped away, so the deposits sum to 0 and mass
conservation fails by more than any floating-point tolerance. -/
theorem claim_c3_counterexample :
    V2.ringDepositSum 100 100 100 0 0 0 0 sixMap = 0 ∧
    1 / 4 ≤ V2.totalRemoved 100 100 (V2.digGridX 100 0 0) (V2.digGridY 100 0 0) sixMap ∧
    V2.ringDepositSum 100 100 100 0 0 0 0 sixMap ≠
      V2.totalRemoved 100 100 (V2.digGridX 100 0 0) (V2.digGridY 100 0 0) sixMap := by
  have hgx : V2.digGridX 100 0 0 = 50 := by
    unfold V2.digGridX
    rw [show ((0 : ℝ) - 0 + 100) / 2 = ((50 : ℤ) : ℝ) by norm_num]
    exact Int.floor_intCast 50
  have hgy : V2.digGridY 100 0 0 = 50 := by
    unfold V2.digGridY
    rw [show ((0 : ℝ) - 0 + 100) / 2 = ((50 : ℤ) : ℝ) by norm_num]
    exact Int.floor_intCast 50
  have h00 : V2.removedAt 100 100 50 50 sixMap (0, 0) = 1 / 4 := by
    simp only [V2.removedAt, sixMap, V2.digRadius, V2.digStrength, V2.minHeight, offDist]
    norm_num [Real.sqrt_zero, max_def]
  have hTpos : 1 / 4 ≤
      V2.totalRemoved 100 100 (V2.digGridX 100 0 0) (V2.digGridY 100 0 0) sixMap := by
    rw [hgx, hgy]
    have h1 := totalRemoved_ge_removedAt 100 100 50 50 sixMap (0, 0)
      (mem_offsetList.mpr (by norm_num))
    rw [h00] at h1
    exact h1
  have hT : 0 < V2.totalRemoved 100 100 (V2.digGridX 100 0 0) (V2.digGridY 100 0 0) sixMap := by
    linarith
  have hds : V2.ringDepositSum 100 100 100 0 0 0 0 sixMap = 0 := by
    simp only [V2.ringDepositSum]
    apply List.sum_eq_zero
    intro a ha
    obtain ⟨p, hp, rfl⟩ := List.mem_map.mp ha
    obtain ⟨p1, p2⟩ := p
    dsimp only
    by_cases hc : V2.RingCond 100 100 (V2.digGridX 100 0 0) (V2.digGridY 100 0 0) 100 (p1, p2)
    · rw [if_pos hc, digHole_at_ring 100 100 100 0 0 0 0 sixMap p1 p2 hc hT,
        digPass_ring_unchanged _ _ _ _ sixMap hc,
        show sixMap (V2.digGridY 100 0 0 + p1) (V2.digGridX 100 0 0 + p2) = 6 from rfl]
      have hsh := share_nonneg hc hT
      rw [min_eq_left (by simp only [V2.maxHeight]; linarith)]
      simp only [V2.maxHeight]
      ring
    · rw [if_neg hc]
  refine ⟨hds, hTpos, ?_⟩
  rw [hds]
  intro h0
  linarith [hTpos, h0]

theorem removedAt_minusSix (gw gh gridX gridY : ℤ) (p : ℤ × ℤ) :
    V2.removedAt gw gh gridX gridY minusSixMap p = 0 := by
  simp only [V2.removedAt, minusSixMap, V2.minHeight]
  rw [if_neg]
  rintro ⟨-, -, -, -, -, h6⟩
  exact neg_six_removed_zero _ h6

theorem totalRemoved_minusSix (gw gh gridX gridY : ℤ) :
    V2.totalRemoved gw gh gridX gridY minusSixMap = 0 := by
  unfold V2.totalRemoved
  apply List.sum_eq_zero
  intro a ha
  obtain ⟨p, hp, rfl⟩ := List.mem_map.mp ha
  exact removedAt_minusSix gw gh gridX gridY p

theorem digPass_minusSix (gw gh gridX gridY : ℤ) (y x : ℤ) :
    V2.digPassMap gw gh gridX gridY minusSixMap y x = minusSixMap y x := by
  simp only [V2.digPassMap, minusSixMap, V2.minHeight]
  rw [if_neg]
  rintro ⟨-, -, -, -, -, -, -, -, -, h10⟩
  exact neg_six_removed_zero _ h10

/-- Witness for the amended claim C3: a central dig of the field resting at
the lower clamp bound, whose ring is nonempty and where no deposit can reach
the maxHeight clamp. -/
theorem claim_c3_amended_witness :
    V2.ringDepositSum 100 100 100 0 0 0 0 minusSixMap =
      V2.totalRemoved 100 100 (V2.digGridX 100 0 0) (V2.digGridY 100 0 0) minusSixMap := by
  have hgx : V2.digGridX 100 0 0 = 50 := by
    unfold V2.digGridX
    rw [show ((0 : ℝ) - 0 + 100) / 2 = ((50 : ℤ) : ℝ) by norm_num]
    exact Int.floor_intCast 50
  have hgy : V2.digGridY 100 0 0 = 50 := by
    unfold V2.digGridY
    rw [show ((0 : ℝ) - 0 + 100) / 2 = ((50 : ℤ) : ℝ) by norm_num]
    exact Int.floor_intCast 50
  have hod : offDist ((0 : ℤ), (20 : ℤ)) = 20 := by
    simp only [offDist]
    push_cast
    rw [show (20 : ℝ) * 20 + 0 * 0 = 20 ^ 2 by norm_num]
    exact Real.sqrt_sq (by norm_num)
  have hcd : cellGardenDist 100 50 70 = 40 := by
    unfold cellGardenDist
    push_cast
    rw [show ((70 : ℝ) * 2 - 100) * ((70 : ℝ) * 2 - 100) +
        ((50 : ℝ) * 2 - 100) * ((50 : ℝ) * 2 - 100) = 40 ^ 2 by norm_num]
    exact Real.sqrt_sq (by norm_num)
  have hne : ∃ p, V2.RingCond 100 100 (V2.digGridX 100 0 0) (V2.digGridY 100 0 0) 100 p := by
    refine ⟨((0 : ℤ), (20 : ℤ)), ?_⟩
    rw [hgx, hgy]
    refine ⟨by norm_num, by norm_num, by norm_num, by norm_num,
      by norm_num, by norm_num, by norm_num, by norm_num, ?_, ?_, ?_⟩
    · rw [hod]
      simp only [V2.digRadius]
      push_cast
      norm_num
    · rw [hod]
      simp only [V2.digRadius, V2.duneSpreadRadius]
      push_cast
      norm_num
    · rw [show (50 : ℤ) + 0 = 50 by norm_num, show (50 : ℤ) + 20 = 70 by norm_num, hcd]
      norm_num
  apply claim_c3_amended 100 100 100 0 0 0 0 minusSixMap hne
  intro p1 p2 hc
  rw [digPass_minusSix, totalRemoved_minusSix, mul_zero]
  simp only [minusSixMap, V2.maxHeight]
  norm_num

/-- Witness for the amended claim C8 at a concrete viewport and state. -/
theorem claim_c8_amended_witness :
    (V1.handleResize 600 800 sampleState).bladeAngle = sampleState.bladeAngle ∧
    (V2.handleResize 600 800 sampleState).bladeAngle = sampleState.bladeAngle :=
  ⟨((claim_c8_amended 600 800 sampleState sampleState).1).2.2.2.2.2,
   ((claim_c8_amended 600 800 sampleState sampleState).2).2.2.2⟩
